import Mathlib

/-!
Shallow embedding of the core game logic of the "World of Bits" repository
(src/src/main.ts): the coordinate mapper (getCellId / getCellBounds), the
deterministic spawn oracle (getInitialCellToken), the sparse cell-override
store (cellContents with saveCellMemento / loadCellMemento), the interaction
engine (handleCellClick), the win check (updateInventoryDisplay), the grid
renderer's read behaviour (drawGrid) and a small event system (clicks, moves,
renders) driving the state, mirroring the browser event loop.

Geographic coordinates are modelled as exact rationals; token values as
naturals; the JavaScript `Map<string, Token | null>` keyed by the string
`"i,j"` is modelled as an association list keyed by the integer pair `(i, j)`
(the string key is in bijection with the pair on the integer addresses the
program uses), with JavaScript `Map` semantics: `set` overwrites in place,
`has`/`get` look the key up, `size` is the number of distinct keys.
-/

/-- Token interface from main.ts: a single numeric `value`. -/
structure Token where
  value : Nat
deriving DecidableEq, Repr

/-- `const WIN_VALUE = 256` in main.ts. -/
def WIN_VALUE : Nat := 256

/-- `const TILE_DEGREES = 0.0001` in main.ts, as an exact rational. -/
def TILE_DEGREES : ℚ := 1 / 10000

/-- `const VISIBLE_RANGE = 20` in main.ts. -/
def VISIBLE_RANGE : Int := 20

/-- `const INTERACTION_RANGE = 3` in main.ts. -/
def INTERACTION_RANGE : Nat := 3

/-- `const INITIAL_TOKEN_PROBABILITY = 0.2` in main.ts, as an exact rational. -/
def INITIAL_TOKEN_PROBABILITY : ℚ := mkRat 2 10

/-- A geographic position (latitude, longitude), exact rationals. -/
abbrev LatLng := ℚ × ℚ

/-- `getCellId` from main.ts: floor of each coordinate divided by the tile
size, relative to the global origin (0,0). -/
def getCellId (latlng : LatLng) : Int × Int :=
  (⌊latlng.1 / TILE_DEGREES⌋, ⌊latlng.2 / TILE_DEGREES⌋)

/-- The rectangular bounds of cell `(i, j)`, as in `getCellBounds` in main.ts:
south-west corner `(i*tile, j*tile)`, north-east corner
`((i+1)*tile, (j+1)*tile)`. -/
structure LatLngBounds where
  southWest : LatLng
  northEast : LatLng
deriving DecidableEq, Repr

/-- `getCellBounds` from main.ts. -/
def getCellBounds (i j : Int) : LatLngBounds :=
  { southWest := ((i : ℚ) * TILE_DEGREES, (j : ℚ) * TILE_DEGREES)
    northEast := (((i : ℚ) + 1) * TILE_DEGREES, ((j : ℚ) + 1) * TILE_DEGREES) }

/-- A position lies in the half-open region `[i*tile,(i+1)*tile) ×
[j*tile,(j+1)*tile)` described by `getCellBounds i j`. -/
def inCellRegion (i j : Int) (p : LatLng) : Prop :=
  (getCellBounds i j).southWest.1 ≤ p.1 ∧ p.1 < (getCellBounds i j).northEast.1 ∧
  (getCellBounds i j).southWest.2 ≤ p.2 ∧ p.2 < (getCellBounds i j).northEast.2

instance (i j : Int) (p : LatLng) : Decidable (inCellRegion i j p) := by
  unfold inCellRegion; infer_instance

/-- Modelled from the spec: main.ts imports `luck` from `./_luck.ts`, a file
not present under src/. Section 4.2 of the spec describes it as a fixed
seeded hash feeding the string/key form of `(i, j)` and producing a value in
`[0,1)`. We model it as a simple deterministic string hash into `[0,1)`:
a polynomial rolling hash of the character codes, reduced mod 1000 and
scaled into the unit interval. -/
def luck (key : String) : ℚ :=
  mkRat (key.data.foldl (fun h c => (h * 31 + c.toNat) % 1000) 7) 1000

/-- The seed string `` `${i},${j}` `` built in `getInitialCellToken`. -/
def cellSeed (i j : Int) : String :=
  toString i ++ "," ++ toString j

/-- `getInitialCellToken` from main.ts: a token of value 1 when the hash of
the cell's seed falls below the spawn probability, otherwise empty. -/
def getInitialCellToken (i j : Int) : Option Token :=
  if luck (cellSeed i j) < INITIAL_TOKEN_PROBABILITY then
    some { value := 1 }
  else
    none

/-- The sparse override store, modelling the JavaScript
`Map<string, Token | null>` named `cellContents`: an association list from
cell address to `Option Token` (`none` is the explicit "cleared by the
player" marker, distinct from absence of an entry). -/
abbrev Store := List ((Int × Int) × Option Token)

/-- `cellContents.has(cellKey)`. -/
def storeHas (m : Store) (k : Int × Int) : Bool :=
  m.any (fun e => decide (e.1 = k))

/-- `saveCellMemento` from main.ts: records/overwrites the override for an
address, with JavaScript `Map.set` semantics (overwrite in place if the key
exists, append otherwise). The source's defensive copy of the token object
is the identity under value semantics. -/
def saveCellMemento (m : Store) (k : Int × Int) (v : Option Token) : Store :=
  if storeHas m k then
    m.map (fun e => if e.1 = k then (k, v) else e)
  else
    m ++ [(k, v)]

/-- `loadCellMemento` from main.ts: `none` when no override was ever
recorded (`undefined` in the source), `some none` when the cell was
explicitly cleared, `some (some t)` when a token override is recorded. -/
def loadCellMemento (m : Store) (k : Int × Int) : Option (Option Token) :=
  (m.find? (fun e => decide (e.1 = k))).map Prod.snd

/-- The effective content of a cell, as computed at the top of
`handleCellClick` and inside `drawGrid`: the spawn oracle's answer,
overridden by the memento when one exists. -/
def effectiveContent (m : Store) (i j : Int) : Option Token :=
  match loadCellMemento m (i, j) with
  | some restored => restored
  | none => getInitialCellToken i j

/-- The two movement facade implementations selectable in main.ts. -/
inductive MovementMode where
  | buttons
  | geolocation
deriving DecidableEq, Repr

/-- The status classes of the messages written to `statusPanelDiv` by
`handleCellClick` (plus the initial welcome message). -/
inductive Status where
  | welcome
  | tooFar (i j : Int)
  | collected (v : Nat) (i j : Int)
  | crafted (v : Nat) (i j : Int)
  | placed (v : Nat) (i j : Int)
  | invalid (i j : Int)
deriving DecidableEq, Repr

/-- The mutable game state of main.ts: the player's held token
(`playerToken`), the player's position (`playerLatLng` /
`movement.getPlayerPosition()`), the override store (`cellContents`), the
active movement mode, whether the victory banner has been shown (the `win`
class on the `gameStatus` element), and the latest status message. -/
structure GameState where
  playerToken : Option Token
  playerPos : LatLng
  cellContents : Store
  movementMode : MovementMode
  won : Bool
  status : Status
deriving DecidableEq, Repr

/-- `updateInventoryDisplay` from main.ts, restricted to its game-visible
effect: when the player holds a token of value at least `WIN_VALUE`, the
victory banner is shown (and the source never removes it). -/
def updateInventoryDisplay (s : GameState) : GameState :=
  match s.playerToken with
  | some t => if WIN_VALUE ≤ t.value then { s with won := true } else s
  | none => s

/-- The in-range test of `handleCellClick`: the click is rejected as too far
when either axis distance to the player's cell exceeds
`INTERACTION_RANGE`. -/
def inRange (s : GameState) (i j : Int) : Bool :=
  let p := getCellId s.playerPos
  decide ((i - p.1).natAbs ≤ INTERACTION_RANGE) &&
    decide ((j - p.2).natAbs ≤ INTERACTION_RANGE)

/-- `handleCellClick` from main.ts: range check, then collect / craft /
place / reject on the pair (holding, effective cell content), then the
inventory display update (which performs the win check). -/
def handleCellClick (s : GameState) (i j : Int) : GameState :=
  let cellToken := effectiveContent s.cellContents i j
  if inRange s i j then
    updateInventoryDisplay <|
      match s.playerToken, cellToken with
      | none, some t =>
          { s with
            playerToken := some t
            cellContents := saveCellMemento s.cellContents (i, j) none
            status := .collected t.value i j }
      | some t, some t' =>
          if t.value = t'.value then
            { s with
              playerToken := none
              cellContents :=
                saveCellMemento s.cellContents (i, j) (some { value := t.value * 2 })
              status := .crafted (t.value * 2) i j }
          else
            { s with status := .invalid i j }
      | some t, none =>
          { s with
            playerToken := none
            cellContents := saveCellMemento s.cellContents (i, j) (some t)
            status := .placed t.value i j }
      | none, none =>
          { s with status := .invalid i j }
  else
    { s with status := .tooFar i j }

/-- One rendered cell of `drawGrid`: its address, its displayed content and
whether it is styled as within interaction range. -/
structure CellRender where
  i : Int
  j : Int
  token : Option Token
  isNearby : Bool
deriving DecidableEq, Repr

/-- `drawGrid` from main.ts, as the pure function computing what is drawn:
for every address in the square window of radius `VISIBLE_RANGE` around the
player's cell, the effective content and the nearby flag. It reads
`cellContents` through `loadCellMemento` and never writes to it. -/
def drawGrid (s : GameState) : List CellRender :=
  let p := getCellId s.playerPos
  (List.range (2 * VISIBLE_RANGE.toNat + 1)).flatMap (fun di =>
    (List.range (2 * VISIBLE_RANGE.toNat + 1)).map (fun dj =>
      let i : Int := p.1 - VISIBLE_RANGE + di
      let j : Int := p.2 - VISIBLE_RANGE + dj
      { i := i
        j := j
        token := effectiveContent s.cellContents i j
        isNearby := decide ((i - p.1).natAbs ≤ INTERACTION_RANGE) &&
          decide ((j - p.2).natAbs ≤ INTERACTION_RANGE) }))

/-- The events the browser event loop delivers to the game: a click on a
cell rectangle, a button move by a fixed delta, a geolocation position
update, a grid redraw (map `moveend`), and a movement-mode switch. -/
inductive Event where
  | click (i j : Int)
  | moveBy (dLat dLng : ℚ)
  | moveTo (pos : LatLng)
  | render
  | setMode (m : MovementMode)
deriving DecidableEq, Repr

/-- One step of the event loop. `movePlayer` updates the position and
redraws; `drawGrid` reads but never writes the store, so a render leaves the
state unchanged. -/
def step (s : GameState) : Event → GameState
  | .click i j => handleCellClick s i j
  | .moveBy dLat dLng =>
      { s with playerPos := (s.playerPos.1 + dLat, s.playerPos.2 + dLng) }
  | .moveTo p => { s with playerPos := p }
  | .render => s
  | .setMode m => { s with movementMode := m }

/-- Run a list of events from a state. -/
def run (s : GameState) (evs : List Event) : GameState :=
  evs.foldl step s

/-- The initial position hard-coded in main.ts (the classroom coordinates),
as exact rationals. -/
def initialLatLng : LatLng :=
  (36997936938057016 / 1000000000000000, -12205703507501151 / 100000000000000)

/-- The fresh game state of main.ts: empty holding, classroom position,
empty override store, button movement, no victory, welcome message. -/
def initialState : GameState :=
  { playerToken := none
    playerPos := initialLatLng
    cellContents := []
    movementMode := .buttons
    won := false
    status := .welcome }

/-! ## Store lemmas: JavaScript `Map` semantics of the override store -/

/-- The key-membership test agrees with membership in the list of keys. -/
lemma storeHas_iff (m : Store) (k : Int × Int) :
    storeHas m k = true ↔ k ∈ m.map Prod.fst := by
  simp [storeHas, List.any_eq_true, List.mem_map]

/-- Looking a key up after an overwrite: the written value at the written
key, the old answer elsewhere. -/
lemma loadCellMemento_save (m : Store) (k : Int × Int) (v : Option Token)
    (k₂ : Int × Int) :
    loadCellMemento (saveCellMemento m k v) k₂ =
      if k₂ = k then some v else loadCellMemento m k₂ := by
  unfold saveCellMemento loadCellMemento
  by_cases hHas : storeHas m k
  · simp only [hHas, if_true]
    rw [List.find?_map]
    have hpred : ((fun e : (Int × Int) × Option Token => decide (e.1 = k₂)) ∘
        (fun e => if e.1 = k then (k, v) else e)) =
        fun e : (Int × Int) × Option Token => decide (e.1 = k₂) := by
      funext e
      by_cases h : e.1 = k <;> simp [h]
    rw [hpred]
    by_cases hk : k₂ = k
    · subst hk
      have hex : ∃ e ∈ m, decide (e.1 = k₂) = true := by
        have := (storeHas_iff m k₂).mp hHas
        simp only [List.mem_map] at this
        obtain ⟨e, he, hek⟩ := this
        exact ⟨e, he, by simp [hek]⟩
      obtain ⟨e0, hfind⟩ := Option.isSome_iff_exists.mp
        (List.find?_isSome.mpr hex)
      rw [hfind]
      have he0 : e0.1 = k₂ := by
        have := List.find?_some hfind
        simpa using this
      simp [he0]
    · cases hfind : m.find? (fun e => decide (e.1 = k₂)) with
      | none => simp [hk]
      | some e1 =>
          have he1 : e1.1 = k₂ := by
            have := List.find?_some hfind
            simpa using this
          have hne : ¬ e1.1 = k := by rw [he1]; exact hk
          simp [hk, hne]
  · rw [Bool.not_eq_true] at hHas
    simp only [hHas, Bool.false_eq_true, if_false]
    rw [List.find?_append]
    by_cases hk : k₂ = k
    · subst hk
      have hnone : m.find? (fun e => decide (e.1 = k₂)) = none := by
        rw [List.find?_eq_none]
        intro e he
        simp only [decide_eq_true_eq]
        intro hek
        have hmem := (storeHas_iff m k₂).mpr (List.mem_map.mpr ⟨e, he, hek⟩)
        rw [hHas] at hmem
        exact Bool.false_ne_true hmem
      simp [hnone, List.find?]
    · cases hfind : m.find? (fun e => decide (e.1 = k₂)) with
      | none =>
          have : ¬ (k = k₂) := fun h => hk h.symm
          simp [hfind, List.find?, this, hk]
      | some e1 => simp [hfind, hk]

/-- The list of keys after an overwrite: unchanged when the key was present,
extended by the key otherwise. -/
lemma map_fst_save (m : Store) (k : Int × Int) (v : Option Token) :
    (saveCellMemento m k v).map Prod.fst =
      if storeHas m k then m.map Prod.fst else m.map Prod.fst ++ [k] := by
  unfold saveCellMemento
  by_cases hHas : storeHas m k
  · simp only [hHas, if_true]
    rw [List.map_map]
    congr 1
    funext e
    by_cases h : e.1 = k <;> simp [h]
  · simp [hHas]

/-- The store size after an overwrite. -/
lemma length_save (m : Store) (k : Int × Int) (v : Option Token) :
    (saveCellMemento m k v).length =
      if storeHas m k then m.length else m.length + 1 := by
  unfold saveCellMemento
  by_cases hHas : storeHas m k <;> simp [hHas]

/-- The key set after an overwrite is the old key set with the key inserted. -/
lemma keys_toFinset_save (m : Store) (k : Int × Int) (v : Option Token) :
    ((saveCellMemento m k v).map Prod.fst).toFinset =
      insert k (m.map Prod.fst).toFinset := by
  rw [map_fst_save]
  by_cases hHas : storeHas m k
  · rw [if_pos hHas, Finset.insert_eq_self.mpr
      (List.mem_toFinset.mpr ((storeHas_iff m k).mp hHas))]
  · rw [if_neg hHas]
    simp [Finset.insert_eq, Finset.union_comm]

/-- Overwrites preserve distinctness of the keys. -/
lemma nodup_keys_save (m : Store) (k : Int × Int) (v : Option Token)
    (h : (m.map Prod.fst).Nodup) :
    ((saveCellMemento m k v).map Prod.fst).Nodup := by
  rw [map_fst_save]
  by_cases hHas : storeHas m k
  · simpa [hHas] using h
  · have hk : k ∉ m.map Prod.fst := fun hm =>
      hHas ((storeHas_iff m k).mpr hm)
    simp [hHas, List.nodup_append, h, hk]

/-- A store with distinct keys has as many entries as its key set. -/
lemma length_eq_card_keys (m : Store) (h : (m.map Prod.fst).Nodup) :
    m.length = (m.map Prod.fst).toFinset.card := by
  rw [List.toFinset_card_of_nodup h, List.length_map]

/-! ## Interaction engine lemmas -/

/-- The inventory display update never touches the override store. -/
lemma uid_cellContents (s : GameState) :
    (updateInventoryDisplay s).cellContents = s.cellContents := by
  unfold updateInventoryDisplay
  cases s.playerToken <;> simp
  split <;> rfl

/-- The inventory display update never touches the held token. -/
lemma uid_playerToken (s : GameState) :
    (updateInventoryDisplay s).playerToken = s.playerToken := by
  unfold updateInventoryDisplay
  cases h : s.playerToken <;> simp [h]
  split <;> simp [h]

/-- The inventory display update never touches the position. -/
lemma uid_playerPos (s : GameState) :
    (updateInventoryDisplay s).playerPos = s.playerPos := by
  unfold updateInventoryDisplay
  cases s.playerToken <;> simp
  split <;> rfl

/-- The inventory display update never touches the movement mode. -/
lemma uid_movementMode (s : GameState) :
    (updateInventoryDisplay s).movementMode = s.movementMode := by
  unfold updateInventoryDisplay
  cases s.playerToken <;> simp
  split <;> rfl

/-- The inventory display update never touches the status message. -/
lemma uid_status (s : GameState) :
    (updateInventoryDisplay s).status = s.status := by
  unfold updateInventoryDisplay
  cases s.playerToken <;> simp
  split <;> rfl

/-- The inventory display update never clears the victory banner. -/
lemma uid_won_mono (s : GameState) (h : s.won = true) :
    (updateInventoryDisplay s).won = true := by
  unfold updateInventoryDisplay
  cases s.playerToken <;> simp [h]
  split <;> simp [h]

/-- The inventory display update raises the victory banner as soon as
the held token reaches the target value. -/
lemma uid_won_of_win (s : GameState) (t : Token) (ht : s.playerToken = some t)
    (hv : WIN_VALUE ≤ t.value) : (updateInventoryDisplay s).won = true := by
  unfold updateInventoryDisplay
  rw [ht]
  simp [hv]

/-- Whether an in-range click on `(i, j)` writes to the store (collect,
craft, or place resolves), read off the branch structure of
`handleCellClick`. -/
def clickWrites (s : GameState) (i j : Int) : Bool :=
  inRange s i j &&
    match s.playerToken, effectiveContent s.cellContents i j with
    | none, some _ => true
    | some t, some u => decide (t.value = u.value)
    | some _, none => true
    | none, none => false

/-- The override value a writing click records: the explicit empty marker on
collect, the doubled token on craft, the held token on place. -/
def clickValue (s : GameState) (i j : Int) : Option Token :=
  match s.playerToken, effectiveContent s.cellContents i j with
  | none, some _ => none
  | some t, some _ => some { value := t.value * 2 }
  | some t, none => some t
  | none, none => none

/-- The store after a click: one overwrite at the clicked address when the
click writes, untouched otherwise. -/
lemma handleCellClick_cellContents (s : GameState) (i j : Int) :
    (handleCellClick s i j).cellContents =
      if clickWrites s i j then
        saveCellMemento s.cellContents (i, j) (clickValue s i j)
      else s.cellContents := by
  unfold handleCellClick clickWrites clickValue
  cases hR : inRange s i j
  · simp
  · cases hP : s.playerToken <;>
      cases hC : effectiveContent s.cellContents i j <;>
        simp [hP, hC, uid_cellContents]
    case some.some t u =>
      by_cases hv : t.value = u.value <;> simp [hv, uid_cellContents]

/-- A click never moves the player. -/
lemma handleCellClick_playerPos (s : GameState) (i j : Int) :
    (handleCellClick s i j).playerPos = s.playerPos := by
  unfold handleCellClick
  cases hR : inRange s i j
  · simp
  · cases hP : s.playerToken <;>
      cases hC : effectiveContent s.cellContents i j <;>
        simp [hP, hC, uid_playerPos]
    case some.some t u =>
      by_cases hv : t.value = u.value <;> simp [hv, uid_playerPos]

/-- A click never changes the movement mode. -/
lemma handleCellClick_movementMode (s : GameState) (i j : Int) :
    (handleCellClick s i j).movementMode = s.movementMode := by
  unfold handleCellClick
  cases hR : inRange s i j
  · simp
  · cases hP : s.playerToken <;>
      cases hC : effectiveContent s.cellContents i j <;>
        simp [hP, hC, uid_movementMode]
    case some.some t u =>
      by_cases hv : t.value = u.value <;> simp [hv, uid_movementMode]

/-- Reading an address other than the clicked one through the memento
cache is unaffected by the click. -/
lemma click_load_frame (s : GameState) (i j : Int) (k : Int × Int)
    (h : k ≠ (i, j)) :
    loadCellMemento (handleCellClick s i j).cellContents k =
      loadCellMemento s.cellContents k := by
  rw [handleCellClick_cellContents]
  by_cases hw : clickWrites s i j
  · rw [if_pos hw, loadCellMemento_save, if_neg h]
  · rw [if_neg hw]

/-! ## Trace lemmas -/

/-- Running a concatenation of traces runs them in sequence. -/
lemma run_append (s : GameState) (evs₁ evs₂ : List Event) :
    run s (evs₁ ++ evs₂) = run (run s evs₁) evs₂ := by
  simp [run, List.foldl_append]

/-- Non-click events leave the override store untouched. -/
lemma step_cellContents_of_not_click (s : GameState) (e : Event)
    (h : ∀ a b, e ≠ Event.click a b) : (step s e).cellContents = s.cellContents := by
  cases e with
  | click a b => exact absurd rfl (h a b)
  | moveBy dLat dLng => rfl
  | moveTo p => rfl
  | render => rfl
  | setMode m => rfl

/-- Reading an address never clicked during a trace through the memento
cache gives the same answer before and after the trace. -/
lemma run_load_frame (evs : List Event) :
    ∀ (s : GameState) (i j : Int),
      (∀ a b, Event.click a b ∈ evs → ¬(a = i ∧ b = j)) →
      loadCellMemento (run s evs).cellContents (i, j) =
        loadCellMemento s.cellContents (i, j) := by
  induction evs with
  | nil => intro s i j _; rfl
  | cons e rest ih =>
      intro s i j h
      have hrest : ∀ a b, Event.click a b ∈ rest → ¬(a = i ∧ b = j) :=
        fun a b hm => h a b (List.mem_cons_of_mem e hm)
      have hrun : run s (e :: rest) = run (step s e) rest := rfl
      rw [hrun, ih (step s e) i j hrest]
      cases e with
      | click a b =>
          have hab : ¬(a = i ∧ b = j) := h a b (List.mem_cons_self _ _)
          have hne : ((i, j) : Int × Int) ≠ (a, b) := by
            intro heq
            obtain ⟨h1, h2⟩ := Prod.mk.injEq .. ▸ heq
            exact hab ⟨h1.symm, h2.symm⟩
          exact click_load_frame s a b (i, j) hne
      | moveBy dLat dLng => rfl
      | moveTo p => rfl
      | render => rfl
      | setMode m => rfl

/-- When no memento exists the effective content is the spawn oracle's. -/
lemma effectiveContent_of_load_none (m : Store) (i j : Int)
    (h : loadCellMemento m (i, j) = none) :
    effectiveContent m i j = getInitialCellToken i j := by
  unfold effectiveContent
  rw [h]

/-- When a memento exists the effective content is the memento. -/
lemma effectiveContent_of_load_some (m : Store) (i j : Int) (X : Option Token)
    (h : loadCellMemento m (i, j) = some X) :
    effectiveContent m i j = X := by
  unfold effectiveContent
  rw [h]

/-! ## Acted-address accounting for the store-size invariant -/

/-- The set of addresses on which a collect, craft, or place resolved during
a trace (the clicks that write to the store). -/
def actedKeys : GameState → List Event → Finset (Int × Int)
  | _, [] => ∅
  | s, e :: rest =>
      (match e with
       | .click i j => if clickWrites s i j then {(i, j)} else ∅
       | _ => (∅ : Finset (Int × Int))) ∪ actedKeys (step s e) rest

/-- The key set of the store after a trace is the initial key set together
with the addresses acted on during the trace; renders and moves contribute
nothing. -/
lemma run_keys_toFinset (evs : List Event) :
    ∀ s : GameState,
      ((run s evs).cellContents.map Prod.fst).toFinset =
        (s.cellContents.map Prod.fst).toFinset ∪ actedKeys s evs := by
  induction evs with
  | nil => intro s; simp [run, actedKeys]
  | cons e rest ih =>
      intro s
      have hrun : run s (e :: rest) = run (step s e) rest := rfl
      rw [hrun, ih (step s e)]
      cases e with
      | click a b =>
          show _ = _ ∪ ((if clickWrites s a b then {(a, b)} else ∅) ∪ _)
          by_cases hw : clickWrites s a b
          · have hstep : (step s (Event.click a b)).cellContents =
                saveCellMemento s.cellContents (a, b) (clickValue s a b) := by
              show (handleCellClick s a b).cellContents = _
              rw [handleCellClick_cellContents, if_pos hw]
            rw [hstep, keys_toFinset_save, if_pos hw]
            simp [Finset.insert_eq, Finset.union_assoc, Finset.union_left_comm,
              Finset.union_comm]
          · have hstep : (step s (Event.click a b)).cellContents = s.cellContents := by
              show (handleCellClick s a b).cellContents = _
              rw [handleCellClick_cellContents, if_neg hw]
            rw [hstep, if_neg hw, Finset.empty_union]
      | moveBy dLat dLng => simp [actedKeys, step]
      | moveTo p => simp [actedKeys, step]
      | render => simp [actedKeys, step]
      | setMode m => simp [actedKeys, step]

/-- Distinctness of the store keys is preserved by every trace. -/
lemma run_nodup_keys (evs : List Event) :
    ∀ s : GameState, (s.cellContents.map Prod.fst).Nodup →
      ((run s evs).cellContents.map Prod.fst).Nodup := by
  induction evs with
  | nil => intro s h; exact h
  | cons e rest ih =>
      intro s h
      have hrun : run s (e :: rest) = run (step s e) rest := rfl
      rw [hrun]
      refine ih (step s e) ?_
      cases e with
      | click a b =>
          show ((handleCellClick s a b).cellContents.map Prod.fst).Nodup
          rw [handleCellClick_cellContents]
          by_cases hw : clickWrites s a b
          · rw [if_pos hw]; exact nodup_keys_save _ _ _ h
          · rw [if_neg hw]; exact h
      | moveBy dLat dLng => exact h
      | moveTo p => exact h
      | render => exact h
      | setMode m => exact h


/-! ## Coordinate mapper lemmas -/

/-- The tile size is positive. -/
lemma tile_pos : (0 : ℚ) < TILE_DEGREES := by
  norm_num [TILE_DEGREES]

/-- Flooring a coordinate over the tile size places it exactly in the
half-open interval of that tile. -/
lemma floor_div_tile_eq_iff (x : ℚ) (i : Int) :
    ⌊x / TILE_DEGREES⌋ = i ↔
      (i : ℚ) * TILE_DEGREES ≤ x ∧ x < ((i : ℚ) + 1) * TILE_DEGREES := by
  rw [Int.floor_eq_iff, le_div_iff₀ tile_pos, div_lt_iff₀ tile_pos]

/-- The address of a position is exactly the tile whose region contains it. -/
lemma getCellId_eq_iff (p : LatLng) (i j : Int) :
    getCellId p = (i, j) ↔ inCellRegion i j p := by
  unfold getCellId inCellRegion getCellBounds
  rw [Prod.mk.injEq]
  rw [floor_div_tile_eq_iff, floor_div_tile_eq_iff]
  tauto

/-! ## Spawn oracle lemmas -/

/-- The rolling hash stays within `[0, 1000)`. -/
lemma hash_fold_bounds (l : List Char) :
    ∀ h : ℤ, 0 ≤ h ∧ h < 1000 →
      0 ≤ l.foldl (fun h c => (h * 31 + (c.toNat : ℤ)) % 1000) h ∧
        l.foldl (fun h c => (h * 31 + (c.toNat : ℤ)) % 1000) h < 1000 := by
  induction l with
  | nil => intro h hh; simpa using hh
  | cons c rest ih =>
      intro h _
      exact ih _ ⟨Int.emod_nonneg _ (by norm_num), Int.emod_lt_of_pos _ (by norm_num)⟩

/-- The modelled hash lands in the unit interval `[0,1)`. -/
lemma luck_mem_Ico (key : String) : 0 ≤ luck key ∧ luck key < 1 := by
  unfold luck
  rw [Rat.mkRat_eq_div]
  have hb := hash_fold_bounds key.data 7 (by norm_num)
  constructor
  · apply div_nonneg _ (by norm_num)
    exact_mod_cast hb.1
  · rw [div_lt_one (by norm_num)]
    exact_mod_cast hb.2

/-- Spawned tokens always carry the minimum value 1. -/
lemma getInitialCellToken_value (i j : Int) (t : Token)
    (h : getInitialCellToken i j = some t) : t.value = 1 := by
  unfold getInitialCellToken at h
  split at h
  · cases h; rfl
  · cases h

/-! ## Further field characterizations of a click -/

/-- The held token after a click, read off the branch structure of
`handleCellClick`. -/
lemma handleCellClick_playerToken (s : GameState) (i j : Int) :
    (handleCellClick s i j).playerToken =
      if inRange s i j then
        match s.playerToken, effectiveContent s.cellContents i j with
        | none, some t => some t
        | some t, some u => if t.value = u.value then none else some t
        | some _, none => none
        | none, none => none
      else s.playerToken := by
  unfold handleCellClick
  cases hR : inRange s i j
  · simp
  · cases hP : s.playerToken <;>
      cases hC : effectiveContent s.cellContents i j <;>
        simp [hP, hC, uid_playerToken]
    case some.some t u =>
      by_cases hv : t.value = u.value <;> simp [hv, uid_playerToken]

/-- The status message after a click, read off the branch structure of
`handleCellClick`. -/
lemma handleCellClick_status (s : GameState) (i j : Int) :
    (handleCellClick s i j).status =
      if inRange s i j then
        match s.playerToken, effectiveContent s.cellContents i j with
        | none, some t => Status.collected t.value i j
        | some t, some u =>
            if t.value = u.value then Status.crafted (t.value * 2) i j
            else Status.invalid i j
        | some t, none => Status.placed t.value i j
        | none, none => Status.invalid i j
      else Status.tooFar i j := by
  unfold handleCellClick
  cases hR : inRange s i j
  · simp
  · cases hP : s.playerToken <;>
      cases hC : effectiveContent s.cellContents i j <;>
        simp [hP, hC, uid_status]
    case some.some t u =>
      by_cases hv : t.value = u.value <;> simp [hv, uid_status]

/-- An out-of-range click only records the "too far" status. -/
lemma handleCellClick_far (s : GameState) (i j : Int)
    (hR : inRange s i j = false) :
    handleCellClick s i j = { s with status := Status.tooFar i j } := by
  unfold handleCellClick
  simp [hR]

/-- An in-range click ends in the inventory display update applied to the
branch result, whose banner flag is the pre-click one. -/
lemma handleCellClick_uid_shape (s : GameState) (i j : Int)
    (hR : inRange s i j = true) :
    ∃ u : GameState, handleCellClick s i j = updateInventoryDisplay u ∧
      u.won = s.won ∧ u.playerToken = (handleCellClick s i j).playerToken := by
  unfold handleCellClick
  simp only [hR, if_true]
  refine ⟨_, rfl, ?_, ?_⟩
  · cases hP : s.playerToken <;>
      cases hC : effectiveContent s.cellContents i j <;>
        simp [hP, hC]
    case some.some t u =>
      by_cases hv : t.value = u.value <;> simp [hv]
  · rw [uid_playerToken]

/-! ## Power-of-two value invariant -/

/-- All token values reachable in a state are powers of two: the held token
and every token recorded in the override store. -/
def tokensPow2 (s : GameState) : Prop :=
  (∀ t : Token, s.playerToken = some t → ∃ n : ℕ, t.value = 2 ^ n) ∧
  (∀ (k : Int × Int) (t : Token),
    loadCellMemento s.cellContents k = some (some t) → ∃ n : ℕ, t.value = 2 ^ n)

/-- A token read through `effectiveContent` is either a stored override or
the spawn oracle's answer. -/
lemma effectiveContent_cases (m : Store) (i j : Int) (t : Token)
    (h : effectiveContent m i j = some t) :
    loadCellMemento m (i, j) = some (some t) ∨ getInitialCellToken i j = some t := by
  unfold effectiveContent at h
  cases hL : loadCellMemento m (i, j) with
  | none =>
      rw [hL] at h
      exact Or.inr h
  | some restored =>
      rw [hL] at h
      simp only at h
      subst h
      exact Or.inl rfl

/-- One event preserves the power-of-two value invariant. -/
lemma tokensPow2_step (s : GameState) (e : Event) (h : tokensPow2 s) :
    tokensPow2 (step s e) := by
  obtain ⟨hHold, hStore⟩ := h
  cases e with
  | moveBy dLat dLng => exact ⟨hHold, hStore⟩
  | moveTo p => exact ⟨hHold, hStore⟩
  | render => exact ⟨hHold, hStore⟩
  | setMode m => exact ⟨hHold, hStore⟩
  | click i j =>
      have hPow : ∀ t : Token, effectiveContent s.cellContents i j = some t →
          ∃ n : ℕ, t.value = 2 ^ n := by
        intro t ht
        cases effectiveContent_cases s.cellContents i j t ht with
        | inl hL => exact hStore (i, j) t hL
        | inr hS => exact ⟨0, by rw [getInitialCellToken_value i j t hS, pow_zero]⟩
      constructor
      · intro t ht
        have hpt := handleCellClick_playerToken s i j
        rw [show step s (Event.click i j) = handleCellClick s i j from rfl] at ht
        rw [hpt] at ht
        cases hR : inRange s i j
        · rw [hR] at ht
          simp at ht
          exact hHold t ht
        · rw [hR] at ht
          simp only [if_true] at ht
          cases hP : s.playerToken with
          | none =>
              cases hC : effectiveContent s.cellContents i j with
              | none =>
                  rw [hP, hC] at ht
                  simp only at ht
                  exact Option.noConfusion ht
              | some u =>
                  rw [hP, hC] at ht
                  simp only [Option.some.injEq] at ht
                  rw [← ht]
                  exact hPow u hC
          | some u =>
              cases hC : effectiveContent s.cellContents i j with
              | none =>
                  rw [hP, hC] at ht
                  simp only at ht
                  exact Option.noConfusion ht
              | some w =>
                  rw [hP, hC] at ht
                  simp only at ht
                  by_cases hv : u.value = w.value
                  · rw [if_pos hv] at ht; cases ht
                  · rw [if_neg hv] at ht
                    simp only [Option.some.injEq] at ht
                    rw [← ht]
                    exact hHold u hP
      · intro k t hk
        rw [show step s (Event.click i j) = handleCellClick s i j from rfl] at hk
        rw [handleCellClick_cellContents] at hk
        by_cases hw : clickWrites s i j
        · rw [if_pos hw, loadCellMemento_save] at hk
          by_cases hkij : k = (i, j)
          · rw [if_pos hkij] at hk
            simp only [Option.some.injEq] at hk
            unfold clickValue at hk
            cases hP : s.playerToken with
            | none =>
                cases hC : effectiveContent s.cellContents i j with
                | none => rw [hP, hC] at hk; cases hk
                | some u => rw [hP, hC] at hk; cases hk
            | some u =>
                cases hC : effectiveContent s.cellContents i j with
                | none =>
                    rw [hP, hC] at hk
                    simp only [Option.some.injEq] at hk
                    rw [← hk]
                    exact hHold u hP
                | some w =>
                    rw [hP, hC] at hk
                    simp only [Option.some.injEq] at hk
                    obtain ⟨n, hn⟩ := hHold u hP
                    refine ⟨n + 1, ?_⟩
                    rw [← hk]
                    simp [hn, pow_succ, Nat.mul_comm]
          · rw [if_neg hkij] at hk
            exact hStore k t hk
        · rw [if_neg hw] at hk
          exact hStore k t hk

/-- The power-of-two invariant holds after every trace from a state
satisfying it. -/
lemma tokensPow2_run (evs : List Event) :
    ∀ s : GameState, tokensPow2 s → tokensPow2 (run s evs) := by
  induction evs with
  | nil => intro s h; exact h
  | cons e rest ih => intro s h; exact ih (step s e) (tokensPow2_step s e h)

/-- The fresh state holds no tokens at all. -/
lemma tokensPow2_initial : tokensPow2 initialState := by
  constructor
  · intro t ht; cases ht
  · intro k t hk; cases hk

/-! ## Win stickiness -/

/-- No event ever clears the victory banner. -/
lemma step_won_mono (s : GameState) (e : Event) (h : s.won = true) :
    (step s e).won = true := by
  cases e with
  | moveBy dLat dLng => exact h
  | moveTo p => exact h
  | render => exact h
  | setMode m => exact h
  | click i j =>
      show (handleCellClick s i j).won = true
      cases hR : inRange s i j
      · rw [handleCellClick_far s i j hR]
        exact h
      · obtain ⟨u, hu, huw, _⟩ := handleCellClick_uid_shape s i j hR
        rw [hu]
        exact uid_won_mono u (by rw [huw]; exact h)

/-- No trace ever clears the victory banner. -/
lemma run_won_mono (evs : List Event) :
    ∀ s : GameState, s.won = true → (run s evs).won = true := by
  induction evs with
  | nil => intro s h; exact h
  | cons e rest ih => intro s h; exact ih (step s e) (step_won_mono s e h)

/-- Non-click events leave the held token untouched. -/
lemma step_playerToken_of_not_click (s : GameState) (e : Event)
    (h : ∀ a b, e ≠ Event.click a b) : (step s e).playerToken = s.playerToken := by
  cases e with
  | click a b => exact absurd rfl (h a b)
  | moveBy dLat dLng => rfl
  | moveTo p => rfl
  | render => rfl
  | setMode m => rfl

/-! ## Persistence (serialize / deserialize) -/

/-- Modelled from the spec: the repository wires no serializer in
src/src/main.ts (only the movement-mode preference is persisted), so the
persistence contract of section 6 of the spec is modelled here. The
serializable snapshot comprises the holding, the player position, the full
override set, the active movement mode, and a save timestamp. -/
structure Snapshot where
  holding : Option Token
  position : LatLng
  overrides : Store
  mode : MovementMode
  savedAt : Nat
deriving DecidableEq, Repr

/-- Modelled from the spec: serialize the game state into a snapshot,
stamped with the save time. -/
def serializeGame (s : GameState) (now : Nat) : Snapshot :=
  { holding := s.playerToken
    position := s.playerPos
    overrides := s.cellContents
    mode := s.movementMode
    savedAt := now }

/-- Modelled from the spec: restore a game state from a snapshot. The
banner and status are presentation state outside the snapshot and restart
fresh. -/
def deserializeGame (snap : Snapshot) : GameState :=
  { playerToken := snap.holding
    playerPos := snap.position
    cellContents := snap.overrides
    movementMode := snap.mode
    won := false
    status := Status.welcome }

/-! ## Concrete states and evaluation lemmas for the witnesses -/

/-- The origin position maps to the origin cell. -/
lemma getCellId_zero : getCellId ((0 : ℚ), (0 : ℚ)) = (0, 0) := by
  simp [getCellId]

/-- At the origin, a click within three cells on both axes is in range. -/
lemma inRange_of_zero (s : GameState) (hp : s.playerPos = ((0 : ℚ), (0 : ℚ)))
    (i j : Int) (hi : i.natAbs ≤ INTERACTION_RANGE)
    (hj : j.natAbs ≤ INTERACTION_RANGE) : inRange s i j = true := by
  simp only [inRange, hp, getCellId_zero]
  simp only [Int.sub_zero, Bool.and_eq_true, decide_eq_true_eq]
  exact ⟨hi, hj⟩

/-- At the origin, a click beyond three cells on the first axis is out of
range. -/
lemma inRange_false_of_zero (s : GameState)
    (hp : s.playerPos = ((0 : ℚ), (0 : ℚ))) (i j : Int)
    (hi : INTERACTION_RANGE < i.natAbs) : inRange s i j = false := by
  simp only [inRange, hp, getCellId_zero]
  simp only [Int.sub_zero, Bool.and_eq_false_iff, decide_eq_false_iff_not, Nat.not_le]
  exact Or.inl hi

/-- A state with the player empty-handed at the origin and one recorded
token override of value 1 at cell (1,1). -/
def wStateA : GameState :=
  { playerToken := none
    playerPos := ((0 : ℚ), (0 : ℚ))
    cellContents := [((1, 1), some { value := 1 })]
    movementMode := MovementMode.buttons
    won := false
    status := Status.welcome }

/-- A state like `wStateA` but whose override at (1,1) is a token of the
target value 256. -/
def wStateB : GameState :=
  { playerToken := none
    playerPos := ((0 : ℚ), (0 : ℚ))
    cellContents := [((1, 1), some { value := 256 })]
    movementMode := MovementMode.buttons
    won := false
    status := Status.welcome }

/-- A state with an explicitly emptied override recorded at the origin
cell. -/
def wStateC : GameState :=
  { playerToken := none
    playerPos := ((0 : ℚ), (0 : ℚ))
    cellContents := [((0, 0), none)]
    movementMode := MovementMode.buttons
    won := false
    status := Status.welcome }

/-- Evaluating the collect click on `wStateB`: the 256 token is picked up
and the win banner raised. -/
lemma click_wStateB_eval :
    handleCellClick wStateB 1 1 =
      { playerToken := some { value := 256 }
        playerPos := ((0 : ℚ), (0 : ℚ))
        cellContents := [((1, 1), none)]
        movementMode := MovementMode.buttons
        won := true
        status := Status.collected 256 1 1 } := by
  have hR : inRange wStateB 1 1 = true :=
    inRange_of_zero wStateB rfl 1 1 (by decide) (by decide)
  unfold handleCellClick
  rw [hR]
  simp only [if_true]
  have hC : effectiveContent wStateB.cellContents 1 1 =
      some { value := 256 } := by decide
  rw [show wStateB.playerToken = none from rfl, hC]
  simp only [updateInventoryDisplay]
  norm_num [wStateB, saveCellMemento, storeHas, WIN_VALUE]

/-- A short demonstration trace from the fresh game: step to the origin,
collect the spawned token at (1,1). -/
def demoTrace2 : List Event := [Event.moveTo ((0 : ℚ), (0 : ℚ)), Event.click 1 1]

/-- The demonstration trace extended by placing the held token into the
empty cell (2,0). -/
def demoTrace3 : List Event := demoTrace2 ++ [Event.click 2 0]

/-- The intermediate state of the demonstration trace: holding the value-1
token collected from (1,1), with the explicit empty override recorded. -/
def demoMid : GameState :=
  { playerToken := some { value := 1 }
    playerPos := ((0 : ℚ), (0 : ℚ))
    cellContents := [((1, 1), none)]
    movementMode := MovementMode.buttons
    won := false
    status := Status.collected 1 1 1 }

/-- The final state of the demonstration trace: the held token was placed
into (2,0), both touched cells carry overrides. -/
def demoEnd : GameState :=
  { playerToken := none
    playerPos := ((0 : ℚ), (0 : ℚ))
    cellContents := [((1, 1), none), ((2, 0), some { value := 1 })]
    movementMode := MovementMode.buttons
    won := false
    status := Status.placed 1 2 0 }

/-- Evaluating the two-event demonstration trace. -/
lemma run_demoTrace2_eval : run initialState demoTrace2 = demoMid := by
  show handleCellClick (step initialState (Event.moveTo ((0 : ℚ), (0 : ℚ)))) 1 1 = _
  set s1 := step initialState (Event.moveTo ((0 : ℚ), (0 : ℚ))) with hs1
  have hR : inRange s1 1 1 = true :=
    inRange_of_zero s1 rfl 1 1 (by decide) (by decide)
  unfold handleCellClick
  rw [hR]
  simp only [if_true]
  have hC : effectiveContent s1.cellContents 1 1 = some { value := 1 } := by decide
  rw [show s1.playerToken = none from rfl, hC]
  simp only [updateInventoryDisplay]
  norm_num [hs1, step, initialState, demoMid, saveCellMemento, storeHas, WIN_VALUE]

/-- Evaluating the place click on `demoMid`. -/
lemma click_demoMid_eval : handleCellClick demoMid 2 0 = demoEnd := by
  have hR : inRange demoMid 2 0 = true :=
    inRange_of_zero demoMid rfl 2 0 (by decide) (by decide)
  unfold handleCellClick
  rw [hR]
  simp only [if_true]
  have hC : effectiveContent demoMid.cellContents 2 0 = none := by decide
  rw [show demoMid.playerToken = some { value := 1 } from rfl, hC]
  simp only [updateInventoryDisplay]
  norm_num [demoMid, demoEnd, saveCellMemento, storeHas, WIN_VALUE]
  decide

/-- Evaluating the three-event demonstration trace. -/
lemma run_demoTrace3_eval : run initialState demoTrace3 = demoEnd := by
  have h2 : run initialState demoTrace3 =
      handleCellClick (run initialState demoTrace2) 2 0 := by
    show run initialState (demoTrace2 ++ [Event.click 2 0]) = _
    rw [run_append]
    rfl
  rw [h2, run_demoTrace2_eval, click_demoMid_eval]

/-! ## Claim theorems -/

/-- C1: an address with no recorded override always answers with the spawn
oracle's deterministic value, however the state was reached; overwriting an
address makes its effective content the recorded value (including the
explicit empty marker, which never falls back to re-spawning); and a
recorded override survives any further events that do not click that
address. -/
theorem claim_C1_flyweight_override (evs : List Event) (s : GameState)
    (i j : Int) (X : Option Token)
    (hnever : ∀ a b, Event.click a b ∈ evs → ¬(a = i ∧ b = j)) :
    effectiveContent (run initialState evs).cellContents i j =
      getInitialCellToken i j
    ∧ (∀ m : Store, effectiveContent (saveCellMemento m (i, j) X) i j = X)
    ∧ (loadCellMemento s.cellContents (i, j) = some X →
        effectiveContent (run s evs).cellContents i j = X) := by
  refine ⟨?_, ?_, ?_⟩
  · apply effectiveContent_of_load_none
    rw [run_load_frame evs initialState i j hnever]
    rfl
  · intro m
    apply effectiveContent_of_load_some
    rw [loadCellMemento_save, if_pos rfl]
  · intro hload
    apply effectiveContent_of_load_some
    rw [run_load_frame evs s i j hnever, hload]

/-- Witness for C1 at concrete inputs. -/
theorem claim_C1_flyweight_override_witness :
    effectiveContent (run initialState [Event.render]).cellContents 0 0 =
      getInitialCellToken 0 0
    ∧ effectiveContent (saveCellMemento [] (0, 0) none) 0 0 = none
    ∧ effectiveContent (run wStateC [Event.render]).cellContents 0 0 = none := by
  have h := claim_C1_flyweight_override [Event.render] wStateC 0 0 none
    (by intro a b hm; simp at hm)
  exact ⟨h.1, h.2.1 [], h.2.2 (by decide)⟩

/-- C2: an in-range click follows the transition table exactly: collect
(empty hand, token in cell), craft (equal values, doubled token recorded),
place (held token recorded into empty cell), and reject (unequal values or
both empty) with no state change. -/
theorem claim_C2_transition_table (s : GameState) (i j : Int)
    (hIn : inRange s i j = true) :
    (∀ t : Token, s.playerToken = none →
        effectiveContent s.cellContents i j = some t →
        (handleCellClick s i j).playerToken = some t
        ∧ loadCellMemento (handleCellClick s i j).cellContents (i, j) = some none
        ∧ (handleCellClick s i j).status = Status.collected t.value i j)
    ∧ (∀ t u : Token, s.playerToken = some t →
        effectiveContent s.cellContents i j = some u → t.value = u.value →
        (handleCellClick s i j).playerToken = none
        ∧ loadCellMemento (handleCellClick s i j).cellContents (i, j) =
            some (some { value := t.value * 2 })
        ∧ (handleCellClick s i j).status = Status.crafted (t.value * 2) i j)
    ∧ (∀ t : Token, s.playerToken = some t →
        effectiveContent s.cellContents i j = none →
        (handleCellClick s i j).playerToken = none
        ∧ loadCellMemento (handleCellClick s i j).cellContents (i, j) =
            some (some t)
        ∧ (handleCellClick s i j).status = Status.placed t.value i j)
    ∧ (∀ t u : Token, s.playerToken = some t →
        effectiveContent s.cellContents i j = some u → t.value ≠ u.value →
        (handleCellClick s i j).playerToken = s.playerToken
        ∧ (handleCellClick s i j).cellContents = s.cellContents)
    ∧ (s.playerToken = none → effectiveContent s.cellContents i j = none →
        (handleCellClick s i j).playerToken = s.playerToken
        ∧ (handleCellClick s i j).cellContents = s.cellContents) := by
  refine ⟨?_, ?_, ?_, ?_, ?_⟩
  · intro t hP hC
    have hw : clickWrites s i j = true := by
      unfold clickWrites
      rw [hIn, hP, hC]
      simp
    refine ⟨?_, ?_, ?_⟩
    · rw [handleCellClick_playerToken, hP, hC]
      simp [hIn]
    · rw [handleCellClick_cellContents, if_pos hw, loadCellMemento_save,
        if_pos rfl]
      simp [clickValue, hP, hC]
    · rw [handleCellClick_status, hP, hC]
      simp [hIn]
  · intro t u hP hC hv
    have hw : clickWrites s i j = true := by
      unfold clickWrites
      rw [hIn, hP, hC]
      simp [hv]
    refine ⟨?_, ?_, ?_⟩
    · rw [handleCellClick_playerToken, hP, hC]
      simp [hIn, hv]
    · rw [handleCellClick_cellContents, if_pos hw, loadCellMemento_save,
        if_pos rfl]
      simp [clickValue, hP, hC]
    · rw [handleCellClick_status, hP, hC]
      simp [hIn, hv]
  · intro t hP hC
    have hw : clickWrites s i j = true := by
      unfold clickWrites
      rw [hIn, hP, hC]
      simp
    refine ⟨?_, ?_, ?_⟩
    · rw [handleCellClick_playerToken, hP, hC]
      simp [hIn]
    · rw [handleCellClick_cellContents, if_pos hw, loadCellMemento_save,
        if_pos rfl]
      simp [clickValue, hP, hC]
    · rw [handleCellClick_status, hP, hC]
      simp [hIn]
  · intro t u hP hC hv
    have hw : ¬ clickWrites s i j = true := by
      unfold clickWrites
      rw [hIn, hP, hC]
      simp [hv]
    constructor
    · rw [handleCellClick_playerToken, hP, hC]
      simp [hIn, hv, hP]
    · rw [handleCellClick_cellContents, if_neg hw]
  · intro hP hC
    have hw : ¬ clickWrites s i j = true := by
      unfold clickWrites
      rw [hIn, hP, hC]
      simp
    constructor
    · rw [handleCellClick_playerToken, hP, hC]
      simp [hIn, hP]
    · rw [handleCellClick_cellContents, if_neg hw]

/-- Witness for C2: the collect row at a concrete state. -/
theorem claim_C2_transition_table_witness :
    (handleCellClick wStateA 1 1).playerToken = some { value := 1 }
    ∧ loadCellMemento (handleCellClick wStateA 1 1).cellContents (1, 1) =
        some none
    ∧ (handleCellClick wStateA 1 1).status = Status.collected 1 1 1 := by
  have h := claim_C2_transition_table wStateA 1 1
    (inRange_of_zero wStateA rfl 1 1 (by decide) (by decide))
  exact h.1 { value := 1 } rfl (by decide)

/-- C3: after any event trace from the fresh game — clicks, moves, and any
number of renders — the override store holds exactly one entry per distinct
address on which a successful mutating interaction (collect, craft, or
place) resolved; rendering never inserts entries. -/
theorem claim_C3_store_size (evs : List Event) :
    (run initialState evs).cellContents.length =
      (actedKeys initialState evs).card := by
  have hnd : ((run initialState evs).cellContents.map Prod.fst).Nodup :=
    run_nodup_keys evs initialState (by simp [initialState])
  rw [length_eq_card_keys _ hnd, run_keys_toFinset evs initialState]
  simp [initialState]

/-- Witness for C3 at the demonstration trace. -/
theorem claim_C3_store_size_witness :
    (run initialState demoTrace3).cellContents.length =
      (actedKeys initialState demoTrace3).card :=
  claim_C3_store_size demoTrace3

/-- C4: deserializing a serialized snapshot restores the holding, the
position, the movement mode, and the effective content of every address
(a fortiori every previously-overridden one); the snapshot carries the
save timestamp. -/
theorem claim_C4_snapshot_roundtrip (s : GameState) (now : Nat) :
    (deserializeGame (serializeGame s now)).playerToken = s.playerToken
    ∧ (deserializeGame (serializeGame s now)).playerPos = s.playerPos
    ∧ (deserializeGame (serializeGame s now)).movementMode = s.movementMode
    ∧ (∀ i j : Int,
        effectiveContent (deserializeGame (serializeGame s now)).cellContents i j =
          effectiveContent s.cellContents i j)
    ∧ (serializeGame s now).savedAt = now :=
  ⟨rfl, rfl, rfl, fun _ _ => rfl, rfl⟩

/-- Witness for C4 at a concrete state and timestamp. -/
theorem claim_C4_snapshot_roundtrip_witness :
    (deserializeGame (serializeGame demoEnd 42)).playerToken = demoEnd.playerToken
    ∧ effectiveContent (deserializeGame (serializeGame demoEnd 42)).cellContents 1 1 =
        effectiveContent demoEnd.cellContents 1 1
    ∧ (serializeGame demoEnd 42).savedAt = 42 := by
  have h := claim_C4_snapshot_roundtrip demoEnd 42
  exact ⟨h.1, h.2.2.2.1 1 1, h.2.2.2.2⟩

/-- C5: an out-of-range click (Chebyshev distance beyond the interaction
radius on either axis) changes neither the holding nor any override entry
nor the position nor the banner, and reports the distinct "too far"
status. -/
theorem claim_C5_range_check (s : GameState) (i j : Int)
    (hOut : inRange s i j = false) :
    (handleCellClick s i j).playerToken = s.playerToken
    ∧ (handleCellClick s i j).cellContents = s.cellContents
    ∧ (handleCellClick s i j).playerPos = s.playerPos
    ∧ (handleCellClick s i j).won = s.won
    ∧ (handleCellClick s i j).status = Status.tooFar i j := by
  rw [handleCellClick_far s i j hOut]
  exact ⟨rfl, rfl, rfl, rfl, rfl⟩

/-- Witness for C5: clicking five cells north from the origin. -/
theorem claim_C5_range_check_witness :
    (handleCellClick wStateA 5 0).playerToken = wStateA.playerToken
    ∧ (handleCellClick wStateA 5 0).cellContents = wStateA.cellContents
    ∧ (handleCellClick wStateA 5 0).playerPos = wStateA.playerPos
    ∧ (handleCellClick wStateA 5 0).won = wStateA.won
    ∧ (handleCellClick wStateA 5 0).status = Status.tooFar 5 0 :=
  claim_C5_range_check wStateA 5 0
    (inRange_false_of_zero wStateA rfl 5 0 (by decide))

/-- C6: whenever an event changes the holding to a token of value at least
the target, the victory banner is raised; and once raised, no further trace
of events ever clears it. -/
theorem claim_C6_win_sticky :
    (∀ (s : GameState) (e : Event) (t : Token),
        (step s e).playerToken = some t → s.playerToken ≠ some t →
        WIN_VALUE ≤ t.value → (step s e).won = true)
    ∧ (∀ (s : GameState) (evs : List Event), s.won = true →
        (run s evs).won = true) := by
  constructor
  · intro s e t hpost hchanged hv
    cases e with
    | moveBy a b => exact absurd hpost hchanged
    | moveTo p => exact absurd hpost hchanged
    | render => exact absurd hpost hchanged
    | setMode m => exact absurd hpost hchanged
    | click i j =>
        cases hR : inRange s i j
        · rw [show step s (Event.click i j) = handleCellClick s i j from rfl,
            handleCellClick_far s i j hR] at hpost
          exact absurd hpost hchanged
        · obtain ⟨u, hu, _, hut⟩ := handleCellClick_uid_shape s i j hR
          show (handleCellClick s i j).won = true
          rw [hu]
          exact uid_won_of_win u t (by rw [hut]; exact hpost) hv
  · intro s evs h
    exact run_won_mono evs s h

/-- Witness for C6: collecting a stored 256 token raises the banner; a
render never clears a raised banner. -/
theorem claim_C6_win_sticky_witness :
    (step wStateB (Event.click 1 1)).won = true
    ∧ (run { wStateB with won := true } [Event.render]).won = true := by
  have h := claim_C6_win_sticky
  constructor
  · exact h.1 wStateB (Event.click 1 1) { value := 256 }
      (by rw [show step wStateB (Event.click 1 1) =
          handleCellClick wStateB 1 1 from rfl, click_wStateB_eval])
      (by decide) (by decide)
  · exact h.2 { wStateB with won := true } [Event.render] rfl

/-- C7: `getCellId` is the componentwise floor against the fixed tile size
from the global origin; every position lies inside the `getCellBounds`
region of its own address, and two positions share an address exactly when
one tile's region contains both. -/
theorem claim_C7_coordinate_mapper (p q : LatLng) :
    inCellRegion (getCellId p).1 (getCellId p).2 p
    ∧ (getCellId p = getCellId q ↔
        ∃ i j : Int, inCellRegion i j p ∧ inCellRegion i j q) := by
  have hp : inCellRegion (getCellId p).1 (getCellId p).2 p := by
    rw [← getCellId_eq_iff]
  refine ⟨hp, ?_, ?_⟩
  · intro h
    refine ⟨(getCellId p).1, (getCellId p).2, hp, ?_⟩
    rw [← getCellId_eq_iff, ← h]
  · rintro ⟨i, j, hpi, hqi⟩
    rw [(getCellId_eq_iff p i j).mpr hpi, (getCellId_eq_iff q i j).mpr hqi]

/-- Witness for C7 at the origin position. -/
theorem claim_C7_coordinate_mapper_witness :
    inCellRegion (getCellId ((0 : ℚ), (0 : ℚ))).1
      (getCellId ((0 : ℚ), (0 : ℚ))).2 ((0 : ℚ), (0 : ℚ)) :=
  (claim_C7_coordinate_mapper ((0 : ℚ), (0 : ℚ)) ((0 : ℚ), (0 : ℚ))).1

/-- C8: the spawn oracle is a pure function of the address alone (it is a
closed function of `(i, j)` in this embedding, with no other state): tokens
it returns have the minimum value 1, it returns the value-1 token exactly
when the seeded hash of the string form of `(i, j)` falls below the spawn
probability, and the hash lies in `[0, 1)`. -/
theorem claim_C8_spawn_oracle (i j : Int) :
    (∀ t : Token, getInitialCellToken i j = some t → t.value = 1)
    ∧ (getInitialCellToken i j = some { value := 1 } ↔
        luck (cellSeed i j) < INITIAL_TOKEN_PROBABILITY)
    ∧ 0 ≤ luck (cellSeed i j) ∧ luck (cellSeed i j) < 1 := by
  refine ⟨getInitialCellToken_value i j, ?_, luck_mem_Ico (cellSeed i j)⟩
  unfold getInitialCellToken
  split
  · next h => simp [h]
  · next h => simp [h]

/-- Witness for C8 at the origin cell. -/
theorem claim_C8_spawn_oracle_witness :
    ({ value := 1 } : Token).value = 1
    ∧ getInitialCellToken 0 0 = some { value := 1 }
    ∧ 0 ≤ luck (cellSeed 0 0) ∧ luck (cellSeed 0 0) < 1 := by
  have h := claim_C8_spawn_oracle 0 0
  exact ⟨h.1 { value := 1 } (by decide), h.2.1.mpr (by decide), h.2.2⟩

/-- C9: in every state reachable from the fresh game, every token value in
the holding or in any override entry is a power of two. -/
theorem claim_C9_values_pow2 (evs : List Event) :
    (∀ t : Token, (run initialState evs).playerToken = some t →
        ∃ n : ℕ, t.value = 2 ^ n)
    ∧ (∀ (k : Int × Int) (t : Token),
        loadCellMemento (run initialState evs).cellContents k = some (some t) →
        ∃ n : ℕ, t.value = 2 ^ n) := by
  have h := tokensPow2_run evs initialState tokensPow2_initial
  unfold tokensPow2 at h
  exact h

/-- Witness for C9 along the demonstration trace. -/
theorem claim_C9_values_pow2_witness :
    (∃ n : ℕ, ({ value := 1 } : Token).value = 2 ^ n)
    ∧ (∃ n : ℕ, ({ value := 1 } : Token).value = 2 ^ n) := by
  constructor
  · exact (claim_C9_values_pow2 demoTrace2).1 { value := 1 }
      (by rw [run_demoTrace2_eval]; rfl)
  · exact (claim_C9_values_pow2 demoTrace3).2 (2, 0) { value := 1 }
      (by rw [run_demoTrace3_eval]; decide)

/-- C10: a click touches at most the clicked address's override entry and
the holding: the position and movement mode are unchanged, and every other
address keeps both its memento and its effective content. -/
theorem claim_C10_click_frame (s : GameState) (i j : Int) :
    (handleCellClick s i j).playerPos = s.playerPos
    ∧ (handleCellClick s i j).movementMode = s.movementMode
    ∧ (∀ k : Int × Int, k ≠ (i, j) →
        loadCellMemento (handleCellClick s i j).cellContents k =
          loadCellMemento s.cellContents k)
    ∧ (∀ a b : Int, ¬(a = i ∧ b = j) →
        effectiveContent (handleCellClick s i j).cellContents a b =
          effectiveContent s.cellContents a b) := by
  refine ⟨handleCellClick_playerPos s i j, handleCellClick_movementMode s i j,
    fun k hk => click_load_frame s i j k hk, ?_⟩
  intro a b hab
  unfold effectiveContent
  rw [click_load_frame s i j (a, b) (by simp only [Ne, Prod.mk.injEq]; exact hab)]

/-- Witness for C10: a click on (1,1) leaves (5,5) and (0,5) untouched. -/
theorem claim_C10_click_frame_witness :
    (handleCellClick wStateA 1 1).playerPos = wStateA.playerPos
    ∧ loadCellMemento (handleCellClick wStateA 1 1).cellContents (5, 5) =
        loadCellMemento wStateA.cellContents (5, 5)
    ∧ effectiveContent (handleCellClick wStateA 1 1).cellContents 0 5 =
        effectiveContent wStateA.cellContents 0 5 := by
  have h := claim_C10_click_frame wStateA 1 1
  exact ⟨h.1, h.2.2.1 (5, 5) (by decide), h.2.2.2 0 5 (by decide)⟩
